import Mathlib

/-!
Shallow embedding of the analytics-system repository:
ingestion-service/server.js (POST /event), processor/worker.js (BullMQ
processor persisting to MongoDB via the mongoose Event schema), and
reporting-service/server.js (GET /stats and GET /stats/aggregated).

Modelling conventions:
* Instants are epoch milliseconds (`Int`); `new Date(string)` is modelled by
  `parseInstant?`, an executable implementation of the ECMAScript Date Time
  String Format (UTC forms), returning `none` for unparseable input. The
  process timezone is modelled as UTC, so `endDate.setDate(getDate() + 1)`
  adds exactly 86400000 ms.
* Possibly-absent JSON/BSON string fields are `Option String`; JavaScript
  truthiness of such a field is `truthy` (absent and `""` are falsy).
* The MongoDB collection is a `List Event` in persisted order; `find` returns
  documents in that order.  The aggregation pipeline is modelled
  deterministically: `$group` emits groups in first-encountered document
  order and `$sort` is stable; a document missing a grouped field falls into
  the `null` (`none`) group, exactly as MongoDB does.
* JavaScript plain-object key order (used by `Object.entries` on
  `pathCounts`) is modelled exactly: canonical array-index keys first in
  ascending numeric order, then the remaining string keys in insertion
  order.  `Array.prototype.sort` is modelled as a stable sort (ES2019).
-/

namespace Analytics

/-- JavaScript truthiness of a possibly-absent string field: `undefined`
(absent) and the empty string are falsy, every other string is truthy. -/
def truthy : Option String → Bool
  | none => false
  | some s => !(s == "")

/-- A persisted event document, per the mongoose `eventSchema` shared by
`processor/worker.js` and `reporting-service/server.js`: `site_id` and
`event_type` required strings, `path` and `user_id` optional strings,
`timestamp` a required `Date` (modelled as epoch milliseconds). -/
structure Event where
  site_id : String
  event_type : String
  path : Option String
  user_id : Option String
  timestamp : Int
deriving DecidableEq, Repr

/-- The five user-supplied fields destructured from `req.body` in
`POST /event`, likewise the shape of the payload enqueued as job data. -/
structure Candidate where
  site_id : Option String
  event_type : Option String
  path : Option String
  user_id : Option String
  timestamp : Option String
deriving DecidableEq, Repr

/-! ### Model of `new Date(string)` (ECMAScript Date Time String Format, UTC) -/

/-- Numeric value of a decimal digit character, `none` otherwise. -/
def digit? (c : Char) : Option Nat :=
  if '0' ≤ c ∧ c ≤ '9' then some (c.toNat - '0'.toNat) else none

/-- Split a character list on a separator character (like `String.splitOn`
with a single-character separator). -/
def splitOnChar (sep : Char) : List Char → List (List Char)
  | [] => [[]]
  | c :: cs =>
    let r := splitOnChar sep cs
    if c = sep then [] :: r
    else
      match r with
      | [] => [[c]]
      | t :: ts => (c :: t) :: ts

/-- Value of a non-empty all-digit character list, `none` otherwise. -/
def digitsVal? (l : List Char) : Option Nat :=
  match l with
  | [] => none
  | _ =>
    l.foldl (fun acc c => acc.bind fun a => (digit? c).map fun d => a * 10 + d) (some 0)

/-- Value of an all-digit character list of exactly `k` digits. -/
def fixed? (l : List Char) (k : Nat) : Option Nat :=
  if l.length = k then digitsVal? l else none

/-- Gregorian leap-year test. -/
def isLeap (y : Nat) : Bool :=
  y % 4 == 0 && (y % 100 != 0 || y % 400 == 0)

/-- Days in a month of the proleptic Gregorian calendar. -/
def daysInMonth (y m : Nat) : Nat :=
  if m = 2 then (if isLeap y then 29 else 28)
  else if m = 4 ∨ m = 6 ∨ m = 9 ∨ m = 11 then 30
  else 31

/-- Days since 1970-01-01 of a proleptic Gregorian civil date
(Howard Hinnant's `days_from_civil`, with C-style truncated division). -/
def daysFromCivil (y m d : Nat) : Int :=
  let yy : Int := if m ≤ 2 then (y : Int) - 1 else (y : Int)
  let era : Int := (if 0 ≤ yy then yy else yy - 399).tdiv 400
  let yoe : Int := yy - era * 400
  let mp : Int := ((m : Int) + 9) % 12
  let doy : Int := (153 * mp + 2).tdiv 5 + (d : Int) - 1
  let doe : Int := yoe * 365 + yoe.tdiv 4 - yoe.tdiv 100 + doy
  era * 146097 + doe - 719468

/-- Parse `YYYY-MM-DD` to days since the epoch. -/
def parseDateChars? (l : List Char) : Option Int :=
  match splitOnChar '-' l with
  | [ys, ms, ds] =>
    match fixed? ys 4, fixed? ms 2, fixed? ds 2 with
    | some y, some m, some d =>
      if 1 ≤ m ∧ m ≤ 12 ∧ 1 ≤ d ∧ d ≤ daysInMonth y m then
        some (daysFromCivil y m d)
      else none
    | _, _, _ => none
  | _ => none

/-- Parse `SS` or `SS.mmm` to (seconds, milliseconds). -/
def parseSecMs? (l : List Char) : Option (Nat × Nat) :=
  match splitOnChar '.' l with
  | [s] => (fixed? s 2).map fun sec => (sec, 0)
  | [s, f] =>
    match fixed? s 2, fixed? f 3 with
    | some sec, some mil => some (sec, mil)
    | _, _ => none
  | _ => none

/-- Parse `HH:MM`, `HH:MM:SS` or `HH:MM:SS.mmm` to milliseconds in the day. -/
def parseTimeChars? (l : List Char) : Option Nat :=
  match splitOnChar ':' l with
  | [hs, ms] =>
    match fixed? hs 2, fixed? ms 2 with
    | some h, some mi =>
      if h ≤ 23 ∧ mi ≤ 59 then some ((h * 60 + mi) * 60000) else none
    | _, _ => none
  | [hs, ms, ss] =>
    match fixed? hs 2, fixed? ms 2, parseSecMs? ss with
    | some h, some mi, some (sec, mil) =>
      if h ≤ 23 ∧ mi ≤ 59 ∧ sec ≤ 59 then
        some (((h * 60 + mi) * 60 + sec) * 1000 + mil)
      else none
    | _, _, _ => none
  | _ => none

/-- Model of `new Date(s).getTime()` for the ECMAScript Date Time String
Format (date form `YYYY-MM-DD`, optional time `THH:MM[:SS[.mmm]]` with an
optional trailing `Z`), under a UTC process timezone; `none` models an
Invalid Date. -/
def parseInstant? (s : String) : Option Int :=
  match splitOnChar 'T' s.toList with
  | [d] => (parseDateChars? d).map (· * 86400000)
  | [d, t] =>
    let t' := if t.getLast? = some 'Z' then t.dropLast else t
    match parseDateChars? d, parseTimeChars? t' with
    | some days, some ms => some (days * 86400000 + (ms : Int))
    | _, _ => none
  | _ => none

/-! ### Ingestion service: `POST /event` (ingestion-service/server.js) -/

/-- The 400 response body message of `POST /event` validation failure. -/
def missingFieldsMessage : String :=
  "Missing required fields: site_id, event_type, timestamp"

/-- The 500 response body message when enqueueing throws. -/
def submitFailureMessage : String := "Failed to accept event"

/-- The required fields checked by the `POST /event` validation guard. -/
def requiredFieldNames : List String := ["site_id", "event_type", "timestamp"]

/-- The required fields that are missing (falsy) on a candidate, in the
order the guard reads them. -/
def missingFields (c : Candidate) : List String :=
  (if truthy c.site_id then [] else ["site_id"]) ++
  (if truthy c.event_type then [] else ["event_type"]) ++
  (if truthy c.timestamp then [] else ["timestamp"])

/-- Outcome of `POST /event`: 400 validation rejection, 200 acceptance with
the enqueued payload, or the 500 catch branch when `eventQueue.add` throws. -/
inductive AcceptOutcome where
  | rejected (status : Nat) (message : String)
  | accepted (enqueued : Candidate)
  | failed (status : Nat) (message : String)
deriving DecidableEq, Repr

/-- The `POST /event` handler: `if (!site_id || !event_type || !timestamp)`
return 400; otherwise `eventQueue.add('process-event', {...})` (success
modelled by `queueOk`) then `{status: 'accepted'}`; a throwing `add` lands in
the catch branch replying 500. -/
def acceptEvent (queueOk : Bool) (c : Candidate) : AcceptOutcome :=
  if !truthy c.site_id || !truthy c.event_type || !truthy c.timestamp then
    .rejected 400 missingFieldsMessage
  else if queueOk then
    .accepted c
  else
    .failed 500 submitFailureMessage

/-! ### Processor worker (processor/worker.js) -/

/-- The mongoose schema validation run by `event.save()` before the insert:
`site_id` and `event_type` are `required` strings (absent or empty fails the
required validator), and `timestamp` must cast to a valid `Date`
(`new Date(job.data.timestamp)` must not be an Invalid Date). -/
def validPayload (p : Candidate) : Bool :=
  truthy p.site_id && truthy p.event_type &&
    (match p.timestamp with
     | some ts => (parseInstant? ts).isSome
     | none => false)

/-- The document built by `new Event({site_id, event_type, path, user_id,
timestamp: new Date(timestamp)})` with parsed timestamp `ms`. -/
def mkEvent (p : Candidate) (ms : Int) : Event :=
  ⟨p.site_id.getD "", p.event_type.getD "", p.path, p.user_id, ms⟩

/-- Result of one leased job: the processor resolving makes BullMQ ack the
job (`acked`, with the store after the insert); a throw makes BullMQ mark it
failed for retry (`failed`). -/
inductive JobResult where
  | acked (newStore : List Event)
  | failed (reason : String)
deriving DecidableEq, Repr

/-- The BullMQ processor body: destructure `job.data`, build the Event and
`await event.save()` — mongoose validates the document against the schema
and only on success performs the insert; any throw propagates so BullMQ
retries the job. -/
def processJob (store : List Event) (p : Candidate) : JobResult :=
  match p.timestamp with
  | none => .failed "ValidationError: timestamp required"
  | some ts =>
    match parseInstant? ts with
    | none => .failed "CastError: invalid date"
    | some ms =>
      if truthy p.site_id && truthy p.event_type then
        .acked (store ++ [mkEvent p ms])
      else
        .failed "ValidationError: required field missing"

/-- The store contents after one lease cycle of a job (unchanged when the
processor throws). -/
def storeAfter (store : List Event) (p : Candidate) : List Event :=
  match processJob store p with
  | .acked s => s
  | .failed _ => store

/-! ### Reporting service: shared query handling -/

/-- The 400 response message shared by both stats endpoints. -/
def missingParamsMessage : String :=
  "Missing required parameters: site_id, date (YYYY-MM-DD)"

/-- The 500 catch-branch message shared by both stats endpoints. -/
def fetchFailedMessage : String := "Failed to fetch stats"

/-- The `{site_id, timestamp: {$gte: startDate, $lt: endDate}}` condition,
with `startDate` = `ws` (UTC midnight of the requested date) and
`endDate` = `ws + 86400000` (`setDate(getDate() + 1)` under UTC). -/
def matchesWindow (site : String) (ws : Int) (e : Event) : Bool :=
  e.site_id == site && decide (ws ≤ e.timestamp) && decide (e.timestamp < ws + 86400000)

/-- The events selected by `Event.find({site_id, timestamp: {...}})` and by
the pipeline's `$match` stage, in persisted order. -/
def matchedEvents (store : List Event) (site : String) (ws : Int) : List Event :=
  store.filter (matchesWindow site ws)

/-- The JSON stats body `{site_id, date, total_views, unique_users,
top_paths}`; a `top_paths` entry is a `{path, views}` pair whose path is
`none` when the pipeline emitted a `null` group id. -/
structure StatsResult where
  site_id : String
  date : String
  total_views : Nat
  unique_users : Nat
  top_paths : List (Option String × Nat)
deriving DecidableEq, Repr

/-- Outcome of a stats endpoint: 400 for missing query parameters, 500 from
the catch branch (e.g. the date fails to cast), or the JSON result. -/
inductive StatsOutcome where
  | badRequest (status : Nat) (message : String)
  | queryError (status : Nat) (message : String)
  | ok (result : StatsResult)
deriving DecidableEq, Repr

/-! ### Scan strategy (`GET /stats`) -/

/-- `new Set(events.map(e => e.user_id).filter(Boolean)).size`: the number
of distinct truthy `user_id` values. -/
def uniqueUsersScan (events : List Event) : Nat :=
  ((events.map (·.user_id)).filter truthy).dedup.length

/-- One `pathCounts[path] = (pathCounts[path] || 0) + 1` step on an
association list in key-insertion order: increment an existing key in place
or append a fresh key with count 1. -/
def bump {κ : Type} [DecidableEq κ] (l : List (κ × Nat)) (k : κ) : List (κ × Nat) :=
  match l with
  | [] => [(k, 1)]
  | (k', n) :: rest => if k' = k then (k', n + 1) :: rest else (k', n) :: bump rest k

/-- The `pathCounts` object: `events.forEach(e => { if (e.path) ... })`,
counting only truthy paths, keys in first-encountered order. -/
def pathCounts (events : List Event) : List (String × Nat) :=
  events.foldl (fun acc e => if truthy e.path then bump acc (e.path.getD "") else acc) []

/-- ECMAScript canonical array-index key: a non-empty all-digit string with
no leading zero (except exactly `"0"`) whose value is below `2^32 - 1`. -/
def arrayIndex? (s : String) : Option Nat :=
  match s.toList with
  | [] => none
  | c :: cs =>
    match digitsVal? (c :: cs) with
    | none => none
    | some n => if (c = '0' → cs = []) ∧ n < 4294967295 then some n else none

/-- Insert into a list of index-keyed entries keeping ascending index order
(stable). -/
def insertIdx (x : Nat × String × Nat) : List (Nat × String × Nat) → List (Nat × String × Nat)
  | [] => [x]
  | y :: ys => if y.1 ≤ x.1 then y :: insertIdx x ys else x :: y :: ys

/-- `Object.entries(pathCounts)`: own-property key order of a JS plain
object — canonical array-index keys in ascending numeric order first, then
the remaining keys in insertion order. -/
def objectEntries (l : List (String × Nat)) : List (String × Nat) :=
  let idx := l.filterMap fun kv => (arrayIndex? kv.1).map fun n => (n, kv)
  let sortedIdx := idx.foldl (fun acc x => insertIdx x acc) []
  sortedIdx.map (·.2) ++ l.filter fun kv => (arrayIndex? kv.1).isNone

/-- One step of a stable descending insertion sort on view counts: a later
element is placed after every element with at least its count. -/
def insertDesc {κ : Type} (x : κ × Nat) : List (κ × Nat) → List (κ × Nat)
  | [] => [x]
  | y :: ys => if x.2 ≤ y.2 then y :: insertDesc x ys else x :: y :: ys

/-- Stable sort by `views` descending: `.sort((a, b) => b.views - a.views)`
(ES2019 stable sort) and, in the pipeline model, `$sort: {views: -1}`. -/
def sortViewsDesc {κ : Type} (l : List (κ × Nat)) : List (κ × Nat) :=
  l.foldl (fun acc x => insertDesc x acc) []

/-- `Object.entries(pathCounts).map(...).sort((a,b) => b.views - a.views)
.slice(0, 10)`, lifted to the common `{path, views}` entry type. -/
def topPathsScan (events : List Event) : List (Option String × Nat) :=
  ((sortViewsDesc (objectEntries (pathCounts events))).take 10).map
    fun kv => (some kv.1, kv.2)

/-- The `GET /stats` handler. -/
def statsScan (store : List Event) (site_id date : Option String) : StatsOutcome :=
  if !truthy site_id || !truthy date then
    .badRequest 400 missingParamsMessage
  else
    match parseInstant? (date.getD "") with
    | none => .queryError 500 fetchFailedMessage
    | some ws =>
      let events := matchedEvents store (site_id.getD "") ws
      .ok { site_id := site_id.getD ""
            date := date.getD ""
            total_views := events.length
            unique_users := uniqueUsersScan events
            top_paths := topPathsScan events }

/-! ### Engine-native strategy (`GET /stats/aggregated`) -/

/-- A `$count` stage: an empty input produces no output document at all
(`none`), otherwise one document holding the count. -/
def countStage (n : Nat) : Option Nat :=
  if n = 0 then none else some n

/-- The `x || 0` read of an optional count (`stats[0]?.total[0]?.views || 0`
and `stats[0]?.unique_users[0]?.count || 0`). -/
def orZero (o : Option Nat) : Nat := o.getD 0

/-- The `unique_users` facet's `$group: {_id: '$user_id'}` output size: the
number of distinct `user_id` values, where a document missing the field
falls into the `null` (`none`) group. -/
def uniqueUsersAgg (events : List Event) : Nat :=
  ((events.map (·.user_id)).dedup).length

/-- The `top_paths` facet's `$group: {_id: '$path', views: {$sum: 1}}`
output, groups in first-encountered document order; a document missing
`path` falls into the `none` group. -/
def pathGroups (events : List Event) : List (Option String × Nat) :=
  events.foldl (fun acc e => bump acc e.path) []

/-- `$sort: {views: -1}` (stable model) then `$limit: 10` then
`$project: {path: '$_id', views: 1}`. -/
def topPathsAgg (events : List Event) : List (Option String × Nat) :=
  (sortViewsDesc (pathGroups events)).take 10

/-- The `GET /stats/aggregated` handler. -/
def statsAgg (store : List Event) (site_id date : Option String) : StatsOutcome :=
  if !truthy site_id || !truthy date then
    .badRequest 400 missingParamsMessage
  else
    match parseInstant? (date.getD "") with
    | none => .queryError 500 fetchFailedMessage
    | some ws =>
      let events := matchedEvents store (site_id.getD "") ws
      .ok { site_id := site_id.getD ""
            date := date.getD ""
            total_views := orZero (countStage events.length)
            unique_users := orZero (countStage (uniqueUsersAgg events))
            top_paths := topPathsAgg events }

/-! ### Concrete fixtures used by counterexamples and witnesses -/

/-- An event whose optional user identifier is absent: grouped under the
`null` id by `$group: {_id: '$user_id'}` but dropped by `.filter(Boolean)`. -/
def noUserStore : List Event :=
  [⟨"site-abc-123", "page_view", some "/pricing", none, 0⟩]

/-- An event lacking both optional fields. -/
def noFieldsStore : List Event :=
  [⟨"site-abc-123", "page_view", none, none, 0⟩]

/-- Two tied paths where the later-persisted one, `"7"`, is a canonical
array-index key and is therefore hoisted first by JS object key order. -/
def indexPathStore : List Event :=
  [⟨"site-abc-123", "page_view", some "/pricing", some "u1", 0⟩,
   ⟨"site-abc-123", "page_view", some "7", some "u2", 1⟩]

/-- Events with every optional field present, non-empty, and no
array-index-like path. -/
def goodStore : List Event :=
  [⟨"site-abc-123", "page_view", some "/pricing", some "u1", 0⟩,
   ⟨"site-abc-123", "page_view", some "/blog", some "u2", 5⟩,
   ⟨"site-abc-123", "page_view", some "/pricing", some "u1", 9⟩]

/-- A store mixing an event without optional fields and a complete one. -/
def mixedStore : List Event :=
  [⟨"site-abc-123", "page_view", none, none, 0⟩,
   ⟨"site-abc-123", "page_view", some "/a", some "u9", 1⟩]

/-- A candidate whose `timestamp` is present (truthy) but not parseable. -/
def unparseableCandidate : Candidate :=
  ⟨some "site-abc-123", some "page_view", some "/pricing", some "user-xyz",
   some "not-a-timestamp"⟩

/-- A fully valid candidate submission. -/
def validCandidate : Candidate :=
  ⟨some "site-abc-123", some "page_view", some "/pricing", some "user-xyz",
   some "2025-11-15T10:00:00Z"⟩

/-- A candidate missing the required `event_type`. -/
def missingTypeCandidate : Candidate :=
  ⟨some "site-abc-123", none, some "/pricing", some "user-xyz",
   some "2025-11-15T10:00:00Z"⟩

/-- A job payload whose timestamp fails to cast (`DD-MM-YYYY` order). -/
def badJobPayload : Candidate :=
  ⟨some "site-abc-123", some "page_view", some "/pricing", some "user-xyz",
   some "15-11-2025"⟩

/-- An event at `23:59:59.999` of 2025-11-15 (UTC). -/
def lateEvent : Event :=
  ⟨"site-abc-123", "page_view", some "/pricing", some "u1", 1763164800000 + 86399999⟩

/-- An event at exactly `00:00:00.000` of 2025-11-16 (UTC). -/
def nextDayEvent : Event :=
  ⟨"site-abc-123", "page_view", some "/pricing", some "u1", 1763164800000 + 86400000⟩

/-- The scan-strategy result on `goodStore` for 1970-01-01. -/
def c5Result : StatsResult :=
  ⟨"site-abc-123", "1970-01-01", 3, 2, [(some "/pricing", 2), (some "/blog", 1)]⟩

/-- A matched event is benign for strategy equivalence when its `user_id`
and `path` are truthy and its path is not an array-index key. -/
def goodEvent (e : Event) : Bool :=
  truthy e.user_id && truthy e.path && (arrayIndex? (e.path.getD "")).isNone

/-! ### Basic lemmas -/

theorem truthy_iff {o : Option String} : truthy o = true ↔ ∃ s, o = some s ∧ s ≠ "" := by
  cases o <;> simp [truthy]

theorem missingFields_eq_nil {c : Candidate} :
    missingFields c = [] ↔
      truthy c.site_id = true ∧ truthy c.event_type = true ∧ truthy c.timestamp = true := by
  unfold missingFields
  cases truthy c.site_id <;> cases truthy c.event_type <;> cases truthy c.timestamp <;> simp

theorem orZero_countStage (n : Nat) : orZero (countStage n) = n := by
  unfold countStage orZero
  split <;> simp_all

/-! ### C4: missing required fields -/

/-- C4: a candidate missing any of the required fields `site_id`,
`event_type`, `timestamp` is rejected synchronously with status 400 and the
message naming the required-field list (which contains every missing
field), and no job is enqueued. -/
theorem C4_missing_fields_rejected (queueOk : Bool) (c : Candidate)
    (h : missingFields c ≠ []) :
    acceptEvent queueOk c = .rejected 400 missingFieldsMessage ∧
    (∀ p, acceptEvent queueOk c ≠ .accepted p) ∧
    missingFieldsMessage =
      "Missing required fields: " ++ String.intercalate ", " requiredFieldNames ∧
    missingFields c ⊆ requiredFieldNames := by
  have hguard : (!truthy c.site_id || !truthy c.event_type || !truthy c.timestamp) = true := by
    cases h1 : truthy c.site_id <;> cases h2 : truthy c.event_type <;>
      cases h3 : truthy c.timestamp <;> simp_all [missingFields]
  refine ⟨by simp [acceptEvent, hguard], fun p => by simp [acceptEvent, hguard], rfl, ?_⟩
  cases h1 : truthy c.site_id <;> cases h2 : truthy c.event_type <;>
    cases h3 : truthy c.timestamp <;>
    simp_all [missingFields, requiredFieldNames]

/-- C4 witness: a concrete candidate missing `event_type`. -/
theorem C4_missing_fields_witness :
    acceptEvent true missingTypeCandidate = .rejected 400 missingFieldsMessage ∧
    (∀ p, acceptEvent true missingTypeCandidate ≠ .accepted p) ∧
    missingFieldsMessage =
      "Missing required fields: " ++ String.intercalate ", " requiredFieldNames ∧
    missingFields missingTypeCandidate ⊆ requiredFieldNames :=
  C4_missing_fields_rejected true missingTypeCandidate (by decide)

/-! ### C9: queue-submission failure is distinct from validation rejection -/

/-- C9: for a valid candidate, a failing queue submission lands in the catch
branch and reports a 500 with its own message; this outcome is not a
validation rejection, and its status and message differ from the 400
validation response. -/
theorem C9_submission_failure_distinct (c : Candidate)
    (h : missingFields c = []) :
    acceptEvent false c = .failed 500 submitFailureMessage ∧
    (∀ s m, acceptEvent false c ≠ .rejected s m) ∧
    submitFailureMessage ≠ missingFieldsMessage ∧ (500 : Nat) ≠ 400 := by
  obtain ⟨h1, h2, h3⟩ := missingFields_eq_nil.mp h
  refine ⟨by simp [acceptEvent, h1, h2, h3], ?_, by decide, by decide⟩
  intro s m
  simp [acceptEvent, h1, h2, h3]

/-- C9 witness: a concrete valid candidate with the queue down. -/
theorem C9_submission_failure_witness :
    acceptEvent false validCandidate = .failed 500 submitFailureMessage ∧
    (∀ s m, acceptEvent false validCandidate ≠ .rejected s m) ∧
    submitFailureMessage ≠ missingFieldsMessage ∧ (500 : Nat) ≠ 400 :=
  C9_submission_failure_distinct validCandidate (by decide)

/-! ### C3: unparseable timestamps are NOT rejected at accept time -/

/-- C3 counterexample: a candidate with a present but unparseable timestamp
is accepted and enqueued by `POST /event` — the handler checks only
truthiness of `timestamp`, never parseability — contradicting the claim
that it is rejected synchronously. -/
theorem C3_counterexample :
    truthy unparseableCandidate.timestamp = true ∧
    parseInstant? "not-a-timestamp" = none ∧
    acceptEvent true unparseableCandidate = .accepted unparseableCandidate ∧
    ∀ s m, acceptEvent true unparseableCandidate ≠ .rejected s m := by
  refine ⟨by decide, by decide, by decide, ?_⟩
  intro s m
  simp [acceptEvent, unparseableCandidate, truthy]

/-- C3 amended: a candidate whose timestamp is present (truthy) but
unparseable passes the accept-time validation and is enqueued; the
unparseable timestamp is rejected only later, by the worker's schema
validation, so the job fails and nothing is written to the store. -/
theorem C3_amended_unparseable_enqueued (c : Candidate) (ts : String)
    (hts : c.timestamp = some ts) (hv : missingFields c = [])
    (hbad : parseInstant? ts = none) :
    acceptEvent true c = .accepted c ∧
    ∀ store : List Event,
      processJob store c = .failed "CastError: invalid date" ∧
      storeAfter store c = store := by
  obtain ⟨h1, h2, h3⟩ := missingFields_eq_nil.mp hv
  refine ⟨by simp [acceptEvent, h1, h2, h3], ?_⟩
  intro store
  constructor <;> simp [processJob, storeAfter, hts, hbad]

/-- C3 amended witness. -/
theorem C3_amended_witness :
    acceptEvent true unparseableCandidate = .accepted unparseableCandidate ∧
    ∀ store : List Event,
      processJob store unparseableCandidate = .failed "CastError: invalid date" ∧
      storeAfter store unparseableCandidate = store :=
  C3_amended_unparseable_enqueued unparseableCandidate "not-a-timestamp"
    (by decide) (by decide) (by decide)

/-! ### C8: worker-side validation gates the durable write -/

/-- C8: a leased payload that fails the schema validation run by
`event.save()` — required fields present and non-empty, timestamp castable
to a valid date — is never acked with a store write: the processor throws,
the store is unchanged, and BullMQ marks the job failed. -/
theorem C8_revalidation_guards_write (store : List Event) (p : Candidate)
    (h : validPayload p = false) :
    (∀ s, processJob store p ≠ .acked s) ∧
    storeAfter store p = store ∧
    ∃ r, processJob store p = .failed r := by
  have hfail : ∃ r, processJob store p = .failed r := by
    unfold validPayload at h
    rcases hts : p.timestamp with _ | ts
    · exact ⟨"ValidationError: timestamp required", by simp [processJob, hts]⟩
    · rw [hts] at h
      rcases hp : parseInstant? ts with _ | ms
      · exact ⟨"CastError: invalid date", by simp [processJob, hts, hp]⟩
      · have h' : ((truthy p.site_id && truthy p.event_type)
            && (parseInstant? ts).isSome) = false := h
        rw [hp] at h'
        have hg : (truthy p.site_id && truthy p.event_type) = false := by simpa using h'
        exact ⟨"ValidationError: required field missing",
          by simp [processJob, hts, hp, hg]⟩
  obtain ⟨r, hr⟩ := hfail
  refine ⟨fun s hs => ?_, ?_, r, hr⟩
  · rw [hr] at hs
    cases hs
  · simp [storeAfter, hr]

/-- C8 witness: a payload with an uncastable timestamp is failed, and the
store is untouched. -/
theorem C8_revalidation_witness :
    (∀ s, processJob [] badJobPayload ≠ .acked s) ∧
    storeAfter [] badJobPayload = [] ∧
    ∃ r, processJob [] badJobPayload = .failed r :=
  C8_revalidation_guards_write [] badJobPayload (by decide)

/-! ### Shape of successful endpoint responses -/

theorem statsScan_ok {store : List Event} {site date : Option String} {r : StatsResult}
    (h : statsScan store site date = .ok r) :
    ∃ ws, parseInstant? (date.getD "") = some ws ∧
      r = { site_id := site.getD "", date := date.getD "",
            total_views := (matchedEvents store (site.getD "") ws).length,
            unique_users := uniqueUsersScan (matchedEvents store (site.getD "") ws),
            top_paths := topPathsScan (matchedEvents store (site.getD "") ws) } := by
  unfold statsScan at h
  split at h
  · cases h
  · split at h
    · cases h
    · next ws hws =>
      refine ⟨ws, hws, ?_⟩
      cases h
      rfl

theorem statsAgg_ok {store : List Event} {site date : Option String} {r : StatsResult}
    (h : statsAgg store site date = .ok r) :
    ∃ ws, parseInstant? (date.getD "") = some ws ∧
      r = { site_id := site.getD "", date := date.getD "",
            total_views := orZero (countStage (matchedEvents store (site.getD "") ws).length),
            unique_users :=
              orZero (countStage (uniqueUsersAgg (matchedEvents store (site.getD "") ws))),
            top_paths := topPathsAgg (matchedEvents store (site.getD "") ws) } := by
  unfold statsAgg at h
  split at h
  · cases h
  · split at h
    · cases h
    · next ws hws =>
      refine ⟨ws, hws, ?_⟩
      cases h
      rfl

theorem statsScan_eval (store : List Event) {site date : Option String} {ws : Int}
    (hs : truthy site = true) (hd : truthy date = true)
    (hp : parseInstant? (date.getD "") = some ws) :
    statsScan store site date = .ok
      { site_id := site.getD "", date := date.getD "",
        total_views := (matchedEvents store (site.getD "") ws).length,
        unique_users := uniqueUsersScan (matchedEvents store (site.getD "") ws),
        top_paths := topPathsScan (matchedEvents store (site.getD "") ws) } := by
  unfold statsScan
  rw [hs, hd, hp]
  rfl

theorem statsAgg_eval (store : List Event) {site date : Option String} {ws : Int}
    (hs : truthy site = true) (hd : truthy date = true)
    (hp : parseInstant? (date.getD "") = some ws) :
    statsAgg store site date = .ok
      { site_id := site.getD "", date := date.getD "",
        total_views := orZero (countStage (matchedEvents store (site.getD "") ws).length),
        unique_users :=
          orZero (countStage (uniqueUsersAgg (matchedEvents store (site.getD "") ws))),
        top_paths := topPathsAgg (matchedEvents store (site.getD "") ws) } := by
  unfold statsAgg
  rw [hs, hd, hp]
  rfl

/-! ### C5: counting invariants of both strategies -/

/-- C5: whichever strategy produced a StatsResult, `unique_users` never
exceeds `total_views`, and `total_views` is exactly the number of stored
events matching the site and the day window at query time. -/
theorem C5_counting_invariants (store : List Event) (site date : Option String)
    (r : StatsResult)
    (h : statsScan store site date = .ok r ∨ statsAgg store site date = .ok r) :
    r.unique_users ≤ r.total_views ∧
    ∃ ws, parseInstant? (date.getD "") = some ws ∧
      r.total_views = (matchedEvents store (site.getD "") ws).length := by
  rcases h with h | h
  · obtain ⟨ws, hws, rfl⟩ := statsScan_ok h
    refine ⟨?_, ws, hws, rfl⟩
    calc uniqueUsersScan (matchedEvents store (site.getD "") ws)
        ≤ (((matchedEvents store (site.getD "") ws).map (·.user_id)).filter truthy).length :=
          List.Sublist.length_le (List.dedup_sublist _)
      _ ≤ ((matchedEvents store (site.getD "") ws).map (·.user_id)).length :=
          List.length_filter_le _ _
      _ = (matchedEvents store (site.getD "") ws).length := List.length_map _ _
  · obtain ⟨ws, hws, rfl⟩ := statsAgg_ok h
    refine ⟨?_, ws, hws, orZero_countStage _⟩
    rw [orZero_countStage, orZero_countStage]
    calc uniqueUsersAgg (matchedEvents store (site.getD "") ws)
        ≤ ((matchedEvents store (site.getD "") ws).map (·.user_id)).length :=
          List.Sublist.length_le (List.dedup_sublist _)
      _ = (matchedEvents store (site.getD "") ws).length := List.length_map _ _

/-- C5 witness: the invariants at a concrete scan-strategy response. -/
theorem C5_counting_witness :
    c5Result.unique_users ≤ c5Result.total_views ∧
    ∃ ws, parseInstant? ((some "1970-01-01" : Option String).getD "") = some ws ∧
      c5Result.total_views =
        (matchedEvents goodStore ((some "site-abc-123" : Option String).getD "") ws).length :=
  C5_counting_invariants goodStore (some "site-abc-123") (some "1970-01-01") c5Result
    (Or.inl (by decide))

/-! ### C7: half-open day window -/

/-- C7: an event of the requested site is included in the day's matched set
iff its timestamp lies in `[day_start, day_start + 1 day)` — the window both
endpoints filter on, with `day_start` the parsed `YYYY-MM-DD` date. -/
theorem C7_half_open_window (store : List Event) (site dateStr : String) (ws : Int)
    (e : Event) (hp : parseInstant? dateStr = some ws) (he : e ∈ store)
    (hsite : e.site_id = site) :
    e ∈ matchedEvents store site ws ↔
      ws ≤ e.timestamp ∧ e.timestamp < ws + 86400000 := by
  simp [matchedEvents, List.mem_filter, matchesWindow, he, hsite]

/-- C7 witness: for 2025-11-15, the event at 23:59:59.999 is counted and the
event at exactly 00:00:00.000 of the next day is not. -/
theorem C7_half_open_window_witness :
    lateEvent ∈ matchedEvents [lateEvent, nextDayEvent] "site-abc-123" 1763164800000 ∧
    nextDayEvent ∉ matchedEvents [lateEvent, nextDayEvent] "site-abc-123" 1763164800000 := by
  constructor
  · exact (C7_half_open_window [lateEvent, nextDayEvent] "site-abc-123" "2025-11-15"
      1763164800000 lateEvent (by decide) (by decide) rfl).mpr (by decide)
  · intro hmem
    have hb := (C7_half_open_window [lateEvent, nextDayEvent] "site-abc-123" "2025-11-15"
      1763164800000 nextDayEvent (by decide) (by decide) rfl).mp hmem
    exact absurd hb (by decide)

/-! ### C10: empty match set through the `$facet`/`$count` pipeline -/

/-- C10: when nothing matches, the `$count` facet branches emit no document
(`none`), yet the endpoint still answers a well-formed StatsResult with
zero counts and an empty `top_paths`. -/
theorem C10_empty_match_wellformed (store : List Event) (site dateStr : String)
    (ws : Int) (hs : site ≠ "") (hd : dateStr ≠ "")
    (hp : parseInstant? dateStr = some ws)
    (hempty : matchedEvents store site ws = []) :
    countStage (matchedEvents store site ws).length = none ∧
    statsAgg store (some site) (some dateStr) = .ok ⟨site, dateStr, 0, 0, []⟩ := by
  constructor
  · rw [hempty]
    rfl
  · have h1 : truthy (some site) = true := by simp [truthy, hs]
    have h2 : truthy (some dateStr) = true := by simp [truthy, hd]
    simp only [statsAgg, h1, h2, Bool.not_true, Bool.or_self, Bool.false_or,
      Option.getD_some, hp, hempty]
    simp [countStage, orZero, uniqueUsersAgg, pathGroups, topPathsAgg, sortViewsDesc]

/-- C10 witness: empty store, concrete site and date. -/
theorem C10_empty_match_witness :
    countStage (matchedEvents [] "site-abc-123" 1763164800000).length = none ∧
    statsAgg [] (some "site-abc-123") (some "2025-11-15") =
      .ok ⟨"site-abc-123", "2025-11-15", 0, 0, []⟩ :=
  C10_empty_match_wellformed [] "site-abc-123" "2025-11-15" 1763164800000
    (by decide) (by decide) (by decide) rfl

/-! ### Lemmas about `bump`-built count lists -/

theorem mem_bump {κ : Type} [DecidableEq κ] {l : List (κ × Nat)} {k : κ}
    {kv : κ × Nat} (h : kv ∈ bump l k) : kv.1 = k ∨ kv ∈ l := by
  induction l with
  | nil =>
    simp [bump] at h
    simp [h]
  | cons y rest ih =>
    obtain ⟨k', n⟩ := y
    by_cases hk : k' = k
    · simp only [bump, if_pos hk, List.mem_cons] at h
      rcases h with rfl | h
      · exact Or.inl hk
      · exact Or.inr (List.mem_cons_of_mem _ h)
    · simp only [bump, if_neg hk, List.mem_cons] at h
      rcases h with rfl | h
      · exact Or.inr (List.mem_cons_self _ _)
      · rcases ih h with h' | h'
        · exact Or.inl h'
        · exact Or.inr (List.mem_cons_of_mem _ h')

theorem key_mem_bump {κ : Type} [DecidableEq κ] {l : List (κ × Nat)} {k k0 : κ}
    (h : k0 = k ∨ ∃ n, (k0, n) ∈ l) : ∃ n, (k0, n) ∈ bump l k := by
  induction l with
  | nil =>
    rcases h with rfl | ⟨n, hn⟩
    · exact ⟨1, by simp [bump]⟩
    · simp at hn
  | cons y rest ih =>
    obtain ⟨k', n'⟩ := y
    by_cases hk : k' = k
    · simp only [bump, if_pos hk]
      rcases h with rfl | ⟨n, hn⟩
      · exact ⟨n' + 1, by simp [hk]⟩
      · rcases List.mem_cons.mp hn with heq | hrest
        · obtain ⟨h1, h2⟩ := Prod.mk.injEq .. ▸ heq
          exact ⟨n' + 1, by simp [h1]⟩
        · exact ⟨n, List.mem_cons_of_mem _ hrest⟩
    · simp only [bump, if_neg hk]
      rcases h with rfl | ⟨n, hn⟩
      · obtain ⟨n, hn⟩ := ih (Or.inl rfl)
        exact ⟨n, List.mem_cons_of_mem _ hn⟩
      · rcases List.mem_cons.mp hn with heq | hrest
        · exact ⟨n, heq ▸ List.mem_cons_self _ _⟩
        · obtain ⟨m, hm⟩ := ih (Or.inr ⟨n, hrest⟩)
          exact ⟨m, List.mem_cons_of_mem _ hm⟩

theorem bump_map_some (l : List (String × Nat)) (k : String) :
    bump (l.map fun kv => ((some kv.1 : Option String), kv.2)) (some k) =
      (bump l k).map fun kv => ((some kv.1 : Option String), kv.2) := by
  induction l with
  | nil => rfl
  | cons y rest ih =>
    obtain ⟨k', n⟩ := y
    by_cases hk : k' = k
    · simp [bump, hk]
    · simp [bump, hk, ih]

/-- Every key of `pathCounts` is the truthy path of some event. -/
theorem pathCounts_keys {events : List Event} {kv : String × Nat}
    (h : kv ∈ pathCounts events) :
    (∃ e ∈ events, e.path = some kv.1) ∧ kv.1 ≠ "" := by
  suffices H : ∀ (l : List Event) (acc : List (String × Nat)),
      kv ∈ l.foldl (fun acc e => if truthy e.path then bump acc (e.path.getD "") else acc) acc →
      kv ∈ acc ∨ ((∃ e ∈ l, e.path = some kv.1) ∧ kv.1 ≠ "") by
    rcases H events [] (by simpa [pathCounts] using h) with hacc | hgood
    · simp at hacc
    · exact hgood
  intro l
  induction l with
  | nil =>
    intro acc hh
    exact Or.inl hh
  | cons e rest ih =>
    intro acc hh
    rw [List.foldl_cons] at hh
    rcases ih _ hh with hacc | ⟨⟨e', he', hp'⟩, hne⟩
    · by_cases hp : truthy e.path = true
      · rw [if_pos hp] at hacc
        rcases mem_bump hacc with hkey | hmem
        · obtain ⟨s, hs, hsne⟩ := truthy_iff.mp hp
          have hkv : kv.1 = s := by
            rw [hkey, hs]
            rfl
          refine Or.inr ⟨⟨e, List.mem_cons_self _ _, ?_⟩, ?_⟩
          · rw [hs, hkv]
          · rw [hkv]
            exact hsne
        · exact Or.inl hmem
      · rw [if_neg hp] at hacc
        exact Or.inl hacc
    · exact Or.inr ⟨⟨e', List.mem_cons_of_mem _ he', hp'⟩, hne⟩

/-- Skipping the falsy-path events does not change `pathCounts`. -/
theorem pathCounts_filter (events : List Event) :
    pathCounts (events.filter fun e => truthy e.path) = pathCounts events := by
  suffices H : ∀ (l : List Event) (acc : List (String × Nat)),
      (l.filter fun e => truthy e.path).foldl
        (fun acc e => if truthy e.path then bump acc (e.path.getD "") else acc) acc =
      l.foldl (fun acc e => if truthy e.path then bump acc (e.path.getD "") else acc) acc by
    exact H events []
  intro l
  induction l with
  | nil => intro acc; rfl
  | cons e rest ih =>
    intro acc
    rw [List.filter_cons]
    by_cases hp : truthy e.path = true
    · simp [hp, ih]
    · simp [hp, ih]

/-- When every event has a truthy path, the pipeline's `$group` output is
the scan's `pathCounts` lifted along `some`. -/
theorem pathGroups_eq_map (events : List Event)
    (h : ∀ e ∈ events, truthy e.path = true) :
    pathGroups events = (pathCounts events).map fun kv => ((some kv.1 : Option String), kv.2) := by
  suffices H : ∀ (l : List Event), (∀ e ∈ l, truthy e.path = true) →
      ∀ acc : List (String × Nat),
      l.foldl (fun acc e => bump acc e.path)
          (acc.map fun kv => ((some kv.1 : Option String), kv.2)) =
        (l.foldl (fun acc e => if truthy e.path then bump acc (e.path.getD "") else acc)
          acc).map fun kv => ((some kv.1 : Option String), kv.2) by
    simpa [pathGroups, pathCounts] using H events h []
  intro l
  induction l with
  | nil =>
    intro _ acc
    rfl
  | cons e rest ih =>
    intro hl acc
    have he : truthy e.path = true := hl e (List.mem_cons_self _ _)
    obtain ⟨p, hp, _⟩ := truthy_iff.mp he
    rw [List.foldl_cons, List.foldl_cons, if_pos he, hp]
    have hgd : (some p).getD "" = p := rfl
    rw [hgd, bump_map_some]
    exact ih (fun e' he' => hl e' (List.mem_cons_of_mem _ he')) _

/-- Key presence is preserved and created by the `pathGroups` fold. -/
theorem key_mem_foldl_bump {l : List Event} {acc : List (Option String × Nat)}
    {k : Option String}
    (h : (∃ n, (k, n) ∈ acc) ∨ ∃ e ∈ l, e.path = k) :
    ∃ n, (k, n) ∈ l.foldl (fun acc e => bump acc e.path) acc := by
  induction l generalizing acc with
  | nil =>
    rcases h with h | h
    · exact h
    · simp at h
  | cons e rest ih =>
    rw [List.foldl_cons]
    rcases h with h | ⟨e', he', hp⟩
    · exact ih (Or.inl (key_mem_bump (Or.inr h)))
    · rcases List.mem_cons.mp he' with rfl | hrest
      · exact ih (Or.inl (key_mem_bump (Or.inl hp.symm)))
      · exact ih (Or.inr ⟨e', hrest, hp⟩)

/-- An event with a missing path puts a `null` group into `pathGroups`. -/
theorem pathGroups_none_mem {events : List Event}
    (h : ∃ e ∈ events, e.path = none) :
    ∃ n, ((none : Option String), n) ∈ pathGroups events :=
  key_mem_foldl_bump (Or.inr h)

/-! ### Lemmas about the stable descending sort -/

theorem mem_insertDesc {κ : Type} {x a : κ × Nat} {l : List (κ × Nat)}
    (h : a ∈ insertDesc x l) : a = x ∨ a ∈ l := by
  induction l with
  | nil =>
    simp [insertDesc] at h
    exact Or.inl h
  | cons y ys ih =>
    by_cases hc : x.2 ≤ y.2
    · simp only [insertDesc, if_pos hc, List.mem_cons] at h
      rcases h with rfl | h
      · exact Or.inr (List.mem_cons_self _ _)
      · rcases ih h with h' | h'
        · exact Or.inl h'
        · exact Or.inr (List.mem_cons_of_mem _ h')
    · simp only [insertDesc, if_neg hc, List.mem_cons] at h
      rcases h with rfl | h
      · exact Or.inl rfl
      · exact Or.inr (List.mem_cons.mpr h)

theorem mem_sortViewsDesc {κ : Type} {a : κ × Nat} {l : List (κ × Nat)}
    (h : a ∈ sortViewsDesc l) : a ∈ l := by
  suffices H : ∀ (l acc : List (κ × Nat)),
      a ∈ l.foldl (fun acc x => insertDesc x acc) acc → a ∈ acc ∨ a ∈ l by
    rcases H l [] (by simpa [sortViewsDesc] using h) with h' | h'
    · simp at h'
    · exact h'
  intro l
  induction l with
  | nil =>
    intro acc hh
    exact Or.inl hh
  | cons x rest ih =>
    intro acc hh
    rw [List.foldl_cons] at hh
    rcases ih _ hh with hacc | hrest
    · rcases mem_insertDesc hacc with rfl | h'
      · exact Or.inr (List.mem_cons_self _ _)
      · exact Or.inl h'
    · exact Or.inr (List.mem_cons_of_mem _ hrest)

theorem insertDesc_pairwise {κ : Type} {x : κ × Nat} {l : List (κ × Nat)}
    (h : l.Pairwise fun a b => b.2 ≤ a.2) :
    (insertDesc x l).Pairwise fun a b => b.2 ≤ a.2 := by
  induction l with
  | nil => simp [insertDesc]
  | cons y ys ih =>
    obtain ⟨hy, hys⟩ := List.pairwise_cons.mp h
    by_cases hc : x.2 ≤ y.2
    · simp only [insertDesc, if_pos hc]
      refine List.pairwise_cons.mpr ⟨?_, ih hys⟩
      intro a ha
      rcases mem_insertDesc ha with rfl | ha'
      · exact hc
      · exact hy a ha'
    · simp only [insertDesc, if_neg hc]
      refine List.pairwise_cons.mpr ⟨?_, h⟩
      intro a ha
      rcases List.mem_cons.mp ha with rfl | ha'
      · omega
      · have := hy a ha'
        omega

theorem sortViewsDesc_pairwise {κ : Type} (l : List (κ × Nat)) :
    (sortViewsDesc l).Pairwise fun a b => b.2 ≤ a.2 := by
  suffices H : ∀ (l acc : List (κ × Nat)), acc.Pairwise (fun a b => b.2 ≤ a.2) →
      (l.foldl (fun acc x => insertDesc x acc) acc).Pairwise fun a b => b.2 ≤ a.2 by
    exact H l [] (by simp)
  intro l
  induction l with
  | nil => exact fun acc h => h
  | cons x rest ih =>
    intro acc h
    rw [List.foldl_cons]
    exact ih _ (insertDesc_pairwise h)

theorem insertDesc_filter {κ : Type} (v : Nat) {x : κ × Nat} {l : List (κ × Nat)}
    (h : l.Pairwise fun a b => b.2 ≤ a.2) :
    (insertDesc x l).filter (fun kv => kv.2 == v) =
      l.filter (fun kv => kv.2 == v) ++ if x.2 == v then [x] else [] := by
  induction l with
  | nil =>
    by_cases hv : (x.2 == v) = true <;> simp [insertDesc, List.filter_cons, hv]
  | cons y ys ih =>
    obtain ⟨hy, hys⟩ := List.pairwise_cons.mp h
    by_cases hc : x.2 ≤ y.2
    · simp only [insertDesc, if_pos hc, List.filter_cons, ih hys]
      by_cases hyv : (y.2 == v) = true <;> simp [hyv]
    · simp only [insertDesc, if_neg hc, List.filter_cons]
      by_cases hxv : (x.2 == v) = true
      · have hxv' : x.2 = v := by simpa using hxv
        have hnil : (y :: ys).filter (fun kv => kv.2 == v) = [] := by
          rw [List.filter_eq_nil]
          intro a ha
          rcases List.mem_cons.mp ha with rfl | ha'
          · simp only [beq_iff_eq]
            omega
          · have := hy a ha'
            simp only [beq_iff_eq]
            omega
        rw [List.filter_cons] at hnil
        simp only [hxv, if_true, hnil]
        simp [hnil]
      · simp [hxv]

theorem sortViewsDesc_filter {κ : Type} (v : Nat) (l : List (κ × Nat)) :
    (sortViewsDesc l).filter (fun kv => kv.2 == v) =
      l.filter (fun kv => kv.2 == v) := by
  suffices H : ∀ (l acc : List (κ × Nat)), acc.Pairwise (fun a b => b.2 ≤ a.2) →
      (l.foldl (fun acc x => insertDesc x acc) acc).filter (fun kv => kv.2 == v) =
        acc.filter (fun kv => kv.2 == v) ++ l.filter (fun kv => kv.2 == v) by
    simpa [sortViewsDesc] using H l [] (by simp)
  intro l
  induction l with
  | nil =>
    intro acc h
    simp
  | cons x rest ih =>
    intro acc h
    rw [List.foldl_cons, ih _ (insertDesc_pairwise h), insertDesc_filter v h,
      List.filter_cons]
    by_cases hxv : (x.2 == v) = true <;> simp [hxv]

theorem insertDesc_map {κ κ' : Type} (f : κ → κ') (x : κ × Nat) (l : List (κ × Nat)) :
    insertDesc (f x.1, x.2) (l.map fun kv => (f kv.1, kv.2)) =
      (insertDesc x l).map fun kv => (f kv.1, kv.2) := by
  induction l with
  | nil => rfl
  | cons y ys ih =>
    by_cases hc : x.2 ≤ y.2 <;> simp [insertDesc, hc, ih]

theorem sortViewsDesc_map {κ κ' : Type} (f : κ → κ') (l : List (κ × Nat)) :
    sortViewsDesc (l.map fun kv => (f kv.1, kv.2)) =
      (sortViewsDesc l).map fun kv => (f kv.1, kv.2) := by
  suffices H : ∀ (l acc : List (κ × Nat)),
      (l.map fun kv => (f kv.1, kv.2)).foldl (fun acc x => insertDesc x acc)
          (acc.map fun kv => (f kv.1, kv.2)) =
        (l.foldl (fun acc x => insertDesc x acc) acc).map fun kv => (f kv.1, kv.2) by
    simpa using H l []
  intro l
  induction l with
  | nil =>
    intro acc
    rfl
  | cons x rest ih =>
    intro acc
    rw [List.map_cons, List.foldl_cons, List.foldl_cons, insertDesc_map f x acc]
    exact ih _

/-! ### Lemmas about JS object key order -/

theorem mem_insertIdx {x a : Nat × String × Nat} {l : List (Nat × String × Nat)}
    (h : a ∈ insertIdx x l) : a = x ∨ a ∈ l := by
  induction l with
  | nil =>
    simp [insertIdx] at h
    exact Or.inl h
  | cons y ys ih =>
    by_cases hc : y.1 ≤ x.1
    · simp only [insertIdx, if_pos hc, List.mem_cons] at h
      rcases h with rfl | h
      · exact Or.inr (List.mem_cons_self _ _)
      · rcases ih h with h' | h'
        · exact Or.inl h'
        · exact Or.inr (List.mem_cons_of_mem _ h')
    · simp only [insertIdx, if_neg hc, List.mem_cons] at h
      rcases h with rfl | h
      · exact Or.inl rfl
      · exact Or.inr (List.mem_cons.mpr h)

theorem mem_foldl_insertIdx {a : Nat × String × Nat}
    {l acc : List (Nat × String × Nat)}
    (h : a ∈ l.foldl (fun acc x => insertIdx x acc) acc) : a ∈ acc ∨ a ∈ l := by
  induction l generalizing acc with
  | nil => exact Or.inl h
  | cons x rest ih =>
    rw [List.foldl_cons] at h
    rcases ih h with hacc | hrest
    · rcases mem_insertIdx hacc with rfl | h'
      · exact Or.inr (List.mem_cons_self _ _)
      · exact Or.inl h'
    · exact Or.inr (List.mem_cons_of_mem _ hrest)

theorem mem_objectEntries {kv : String × Nat} {l : List (String × Nat)}
    (h : kv ∈ objectEntries l) : kv ∈ l := by
  unfold objectEntries at h
  rcases List.mem_append.mp h with h | h
  · obtain ⟨x, hx, rfl⟩ := List.mem_map.mp h
    rcases mem_foldl_insertIdx hx with hnil | hidx
    · simp at hnil
    · obtain ⟨kv', hkv', hsome⟩ := List.mem_filterMap.mp hidx
      rcases ho : arrayIndex? kv'.1 with _ | n
      · rw [ho] at hsome
        cases hsome
      · rw [ho] at hsome
        obtain ⟨rfl⟩ := Option.some.inj hsome
        exact hkv'
  · exact (List.mem_filter.mp h).1

theorem objectEntries_eq_self {l : List (String × Nat)}
    (h : ∀ kv ∈ l, arrayIndex? kv.1 = none) : objectEntries l = l := by
  unfold objectEntries
  have h1 : (l.filterMap fun kv => (arrayIndex? kv.1).map fun n => (n, kv)) = [] := by
    rw [List.filterMap_eq_nil]
    intro kv hkv
    rw [h kv hkv]
    rfl
  rw [h1]
  simp only [List.foldl_nil, List.map_nil, List.nil_append]
  rw [List.filter_eq_self]
  intro kv hkv
  rw [h kv hkv]
  rfl

/-! ### Agreement of the two strategies on benign data -/

theorem map_user_filter (events : List Event) :
    (events.filter fun e => truthy e.user_id).map (·.user_id) =
      (events.map (·.user_id)).filter truthy := by
  induction events with
  | nil => rfl
  | cons e rest ih =>
    rw [List.filter_cons, List.map_cons, List.filter_cons]
    by_cases h : truthy e.user_id = true
    · simp [h, ih]
    · simp [h, ih]

theorem uniqueUsers_agree {events : List Event}
    (h : ∀ e ∈ events, truthy e.user_id = true) :
    uniqueUsersScan events = uniqueUsersAgg events := by
  unfold uniqueUsersScan uniqueUsersAgg
  rw [List.filter_eq_self.mpr]
  intro a ha
  obtain ⟨e, he, rfl⟩ := List.mem_map.mp ha
  exact h e he

theorem topPaths_agree {events : List Event}
    (hpath : ∀ e ∈ events, truthy e.path = true)
    (hidx : ∀ e ∈ events, (arrayIndex? (e.path.getD "")).isNone = true) :
    topPathsScan events = topPathsAgg events := by
  have hkeys : ∀ kv ∈ pathCounts events, arrayIndex? kv.1 = none := by
    intro kv hkv
    obtain ⟨⟨e, he, hpe⟩, _⟩ := pathCounts_keys hkv
    have hi := hidx e he
    rw [hpe] at hi
    simpa [Option.isNone_iff_eq_none] using hi
  unfold topPathsScan topPathsAgg
  rw [objectEntries_eq_self hkeys, pathGroups_eq_map events hpath,
    sortViewsDesc_map some, List.map_take]

theorem scan_lt_agg_of_none {events : List Event}
    (h : ∃ e ∈ events, e.user_id = none) :
    uniqueUsersScan events < uniqueUsersAgg events := by
  obtain ⟨e, he, hu⟩ := h
  unfold uniqueUsersScan uniqueUsersAgg
  rw [← List.card_toFinset, ← List.card_toFinset]
  have hsub : ((events.map (·.user_id)).filter truthy).toFinset ⊆
      (events.map (·.user_id)).toFinset := by
    intro x hx
    rw [List.mem_toFinset] at hx ⊢
    exact List.mem_of_mem_filter hx
  apply Finset.card_lt_card
  rw [Finset.ssubset_iff_of_subset hsub]
  refine ⟨none, ?_, ?_⟩
  · rw [List.mem_toFinset]
    exact List.mem_map.mpr ⟨e, he, hu⟩
  · intro hmem
    rw [List.mem_toFinset, List.mem_filter] at hmem
    exact absurd hmem.2 (by simp [truthy])

theorem topPathsScan_entries {events : List Event} {kv : Option String × Nat}
    (h : kv ∈ topPathsScan events) : ∃ p, kv.1 = some p ∧ p ≠ "" := by
  unfold topPathsScan at h
  obtain ⟨kv', hkv', rfl⟩ := List.mem_map.mp h
  have h1 : kv' ∈ sortViewsDesc (objectEntries (pathCounts events)) :=
    List.take_subset _ _ hkv'
  have h2 := mem_objectEntries (mem_sortViewsDesc h1)
  obtain ⟨_, hne⟩ := pathCounts_keys h2
  exact ⟨kv'.1, rfl, hne⟩

/-! ### C1: the two strategies are not interchangeable -/

/-- C1 counterexample: on a store whose single matching event has no
`user_id`, the scan strategy reports `unique_users = 0` (missing ids are
filtered out) while the engine-native strategy reports `unique_users = 1`
(the `null` group produced by `$group: {_id: '$user_id'}` is counted), so
the two StatsResults differ for the same input. -/
theorem C1_counterexample :
    statsScan noUserStore (some "site-abc-123") (some "1970-01-01") =
      .ok ⟨"site-abc-123", "1970-01-01", 1, 0, [(some "/pricing", 1)]⟩ ∧
    statsAgg noUserStore (some "site-abc-123") (some "1970-01-01") =
      .ok ⟨"site-abc-123", "1970-01-01", 1, 1, [(some "/pricing", 1)]⟩ ∧
    statsScan noUserStore (some "site-abc-123") (some "1970-01-01") ≠
      statsAgg noUserStore (some "site-abc-123") (some "1970-01-01") := by
  refine ⟨by decide, by decide, by decide⟩

/-- C1 amended: the strategies return identical StatsResults whenever every
matching event has a truthy `user_id` and a truthy, non-array-index `path`;
they can differ otherwise (missing `user_id` adds a `null` group to the
engine-native `unique_users`, missing `path` adds a `null` top-paths entry,
and array-index-like paths are reordered by JS object key order).  The
engine pipeline is modelled with groups in first-encountered order and a
stable sort. -/
theorem C1_amended_strategies_agree (store : List Event) (site date : Option String)
    (ws : Int) (hp : parseInstant? (date.getD "") = some ws)
    (h : ∀ e ∈ matchedEvents store (site.getD "") ws, goodEvent e = true) :
    statsScan store site date = statsAgg store site date := by
  have huser : ∀ e ∈ matchedEvents store (site.getD "") ws, truthy e.user_id = true := by
    intro e he
    have hg := h e he
    simp only [goodEvent, Bool.and_eq_true] at hg
    exact hg.1.1
  have hpath : ∀ e ∈ matchedEvents store (site.getD "") ws, truthy e.path = true := by
    intro e he
    have hg := h e he
    simp only [goodEvent, Bool.and_eq_true] at hg
    exact hg.1.2
  have hidx : ∀ e ∈ matchedEvents store (site.getD "") ws,
      (arrayIndex? (e.path.getD "")).isNone = true := by
    intro e he
    have hg := h e he
    simp only [goodEvent, Bool.and_eq_true] at hg
    exact hg.2
  cases hs : truthy site with
  | false =>
    unfold statsScan statsAgg
    rw [hs]
    rfl
  | true =>
    cases hd : truthy date with
    | false =>
      unfold statsScan statsAgg
      rw [hs, hd]
      rfl
    | true =>
      rw [statsScan_eval store hs hd hp, statsAgg_eval store hs hd hp]
      simp only [StatsOutcome.ok.injEq, StatsResult.mk.injEq]
      refine ⟨trivial, trivial, (orZero_countStage _).symm, ?_, ?_⟩
      · rw [orZero_countStage]
        exact uniqueUsers_agree huser
      · exact topPaths_agree hpath hidx

/-- C1 amended witness: a concrete benign store where both endpoints return
the same StatsResult. -/
theorem C1_amended_witness :
    statsScan goodStore (some "site-abc-123") (some "1970-01-01") =
      statsAgg goodStore (some "site-abc-123") (some "1970-01-01") :=
  C1_amended_strategies_agree goodStore (some "site-abc-123") (some "1970-01-01") 0
    (by decide) (by decide)

/-! ### C2: treatment of missing `user_id` / `path` -/

/-- C2 counterexample: for a store whose single matching event lacks both
`user_id` and `path`, the scan strategy excludes it from both counts, but
the engine-native strategy counts the missing `user_id` as one unique user
and emits a `null`-path entry in `top_paths`, contradicting the claim that
both strategies exclude missing values. -/
theorem C2_counterexample :
    statsScan noFieldsStore (some "site-abc-123") (some "1970-01-01") =
      .ok ⟨"site-abc-123", "1970-01-01", 1, 0, []⟩ ∧
    statsAgg noFieldsStore (some "site-abc-123") (some "1970-01-01") =
      .ok ⟨"site-abc-123", "1970-01-01", 1, 1, [(none, 1)]⟩ := by
  refine ⟨by decide, by decide⟩

/-- C2 amended: the scan strategy behaves as claimed — events with
missing/empty `user_id` or `path` are excluded from the respective counts
and never appear as empty-string (or null) entries; the engine-native
strategy instead counts a missing `user_id` as an extra (`null`) group in
`unique_users` and gives events with missing `path` a `null` group in the
`top_paths` grouping. -/
theorem C2_amended_missing_field_handling (events : List Event) :
    uniqueUsersScan events = uniqueUsersScan (events.filter fun e => truthy e.user_id) ∧
    topPathsScan events = topPathsScan (events.filter fun e => truthy e.path) ∧
    (∀ kv ∈ topPathsScan events, ∃ p, kv.1 = some p ∧ p ≠ "") ∧
    ((∃ e ∈ events, e.user_id = none) → uniqueUsersScan events < uniqueUsersAgg events) ∧
    ((∃ e ∈ events, e.path = none) → ∃ n, ((none : Option String), n) ∈ pathGroups events) := by
  refine ⟨?_, ?_, fun kv hkv => topPathsScan_entries hkv, scan_lt_agg_of_none,
    pathGroups_none_mem⟩
  · unfold uniqueUsersScan
    rw [map_user_filter, List.filter_filter]
    simp
  · unfold topPathsScan
    rw [pathCounts_filter]

/-- C2 amended witness: on a concrete mixed store the engine-native unique
count strictly exceeds the scan count because of the `null` group. -/
theorem C2_amended_witness :
    uniqueUsersScan mixedStore < uniqueUsersAgg mixedStore :=
  (C2_amended_missing_field_handling mixedStore).2.2.2.1
    ⟨⟨"site-abc-123", "page_view", none, none, 0⟩, by decide, rfl⟩

/-! ### C6: ordering, tie-break and truncation of `top_paths` -/

/-- C6 counterexample: `"/pricing"` is persisted before `"7"` and both have
one view, yet the scan strategy lists `"7"` first — `Object.entries` places
canonical array-index keys ahead of insertion order, so the first-persisted
tie-break claim fails. -/
theorem C6_counterexample :
    indexPathStore.map (·.path) = [some "/pricing", some "7"] ∧
    statsScan indexPathStore (some "site-abc-123") (some "1970-01-01") =
      .ok ⟨"site-abc-123", "1970-01-01", 2, 2,
        [(some "7", 1), (some "/pricing", 1)]⟩ := by
  refine ⟨by decide, by decide⟩

/-- C6 amended: in both strategies `top_paths` is sorted by views descending
with at most 10 entries.  The first-encountered tie-break holds for the
engine-native strategy (stable model of `$sort` over groups in
first-encountered order: filtering any fixed view count preserves the
`pathGroups` order) and for the scan strategy only when no counted path is
a canonical array-index string, in which case `Object.entries` preserves
insertion order and the stable sort preserves first-encountered order among
equal counts. -/
theorem C6_amended_top_paths (events : List Event) :
    ((topPathsScan events).Pairwise fun a b => b.2 ≤ a.2) ∧
    (topPathsScan events).length ≤ 10 ∧
    ((topPathsAgg events).Pairwise fun a b => b.2 ≤ a.2) ∧
    (topPathsAgg events).length ≤ 10 ∧
    (∀ v, (sortViewsDesc (pathGroups events)).filter (fun kv => kv.2 == v) =
      (pathGroups events).filter fun kv => kv.2 == v) ∧
    ((∀ kv ∈ pathCounts events, arrayIndex? kv.1 = none) →
      topPathsScan events =
        ((sortViewsDesc (pathCounts events)).take 10).map
          (fun kv => ((some kv.1 : Option String), kv.2)) ∧
      ∀ v, (sortViewsDesc (pathCounts events)).filter (fun kv => kv.2 == v) =
        (pathCounts events).filter fun kv => kv.2 == v) := by
  refine ⟨?_, ?_, ?_, ?_, fun v => sortViewsDesc_filter v _,
    fun hidx => ⟨?_, fun v => sortViewsDesc_filter v _⟩⟩
  · unfold topPathsScan
    exact List.Pairwise.map _ (fun a b hab => hab)
      (List.Pairwise.sublist (List.take_sublist _ _) (sortViewsDesc_pairwise _))
  · unfold topPathsScan
    rw [List.length_map]
    exact List.length_take_le _ _
  · unfold topPathsAgg
    exact List.Pairwise.sublist (List.take_sublist _ _) (sortViewsDesc_pairwise _)
  · unfold topPathsAgg
    exact List.length_take_le _ _
  · unfold topPathsScan
    rw [objectEntries_eq_self hidx]

/-- C6 amended witness: the ordering facts at a concrete store. -/
theorem C6_amended_witness :
    (topPathsAgg goodStore).Pairwise (fun a b => b.2 ≤ a.2) ∧
    (topPathsScan goodStore).length ≤ 10 :=
  ⟨(C6_amended_top_paths goodStore).2.2.1, (C6_amended_top_paths goodStore).2.1⟩

end Analytics
